import Mathlib

/-! Verification of the lapack-derive source transformer.

The Rust crate turns a raw LAPACK foreign-function declaration (all
parameters pointer-typed) into an ergonomic wrapper taking values,
references and slices.  The definitions below shallowly embed the
non-test logic of src/lapack-derive/src/lib.rs: syntax shapes become
inductives, panicking paths (unwrap, unreachable, unimplemented) become
Option failures, and the strings built with format! are built with
string append.  External collaborators (the syn/quote libraries and the
Rust type checker at the generated call site) are modelled from the
spec; each such definition is marked in its doc comment. -/

namespace LapackDerive

/-- ASCII lowercasing of one character (uppercase letters shift by 32,
everything else unchanged). -/
def charLower (c : Char) : Char :=
  if 'A' ≤ c ∧ c ≤ 'Z' then Char.ofNat (c.toNat + 32) else c

/-- Modelled from the spec: Rust's str::to_lowercase, restricted to the
ASCII identifiers that parameter names consist of. -/
def lower (s : String) : String :=
  String.mk (s.data.map charLower)

/-- The shapes of syn::Type the transformer can meet behind a pointer:
a (possibly parameterized) path such as f64 or Num<f64>, a further
pointer, or an array type.  A path with nonempty arguments models a
parameterized named type, which syn still classifies as Type::Path. -/
inductive RustType where
  | path (head : String) (args : List RustType)
  | ptr (isMut : Bool) (elem : RustType)
  | array (elem : RustType)

mutual

/-- Rendering of a type back to the space-separated token string that
quote! { #path }.to_string() produces. -/
def renderType : RustType → String
  | .path head [] => head
  | .path head (a :: rest) =>
      head ++ " < " ++ renderType a ++ renderTypeTail rest ++ " >"
  | .ptr false elem => "* const " ++ renderType elem
  | .ptr true elem => "* mut " ++ renderType elem
  | .array elem => "[ " ++ renderType elem ++ " ]"

/-- Remaining generic arguments of a parameterized path, comma separated. -/
def renderTypeTail : List RustType → String
  | [] => ""
  | a :: rest => " , " ++ renderType a ++ renderTypeTail rest

end

/-- Pointer type: *const T or *mut T, with T kept as its rendered string
exactly as in the source enum Ptr. -/
inductive Ptr where
  | Constant (ty : String)
  | Mutable (ty : String)

/-- Get T as String (Ptr::ty in the source). -/
def Ptr.ty : Ptr → String
  | .Constant t => t
  | .Mutable t => t

/-- impl From<syn::TypePtr> for Ptr: a pointee that is a syn Type::Path
(parameterized or not) is rendered and tagged with the pointer's
mutability; any other pointee shape hits unimplemented! and fails. -/
def ptrFromTypePtr (isMut : Bool) (elem : RustType) : Option Ptr :=
  match elem with
  | .path _ _ =>
      some (if isMut then .Mutable (renderType elem) else .Constant (renderType elem))
  | _ => none

/-- A parameter binding pattern: a plain identifier, or anything else
(destructuring, wildcard), which the source rejects. -/
inductive Pat where
  | ident (name : String)
  | other

/-- One function argument: a typed pattern, or a receiver (self), which
the source rejects with unreachable!. -/
inductive FnArg where
  | typed (pat : Pat) (ty : RustType)
  | receiver

/-- The parsed foreign function: identifier, argument list, optional
return type (syn::ForeignItemFn restricted to the fields used). -/
structure ForeignItemFn where
  ident : String
  inputs : List FnArg
  output : Option RustType

/-- Parse type ascription pattern a: *mut f64 into ("a", Ptr): the fn
parse_input of the source.  A non-identifier pattern or a non-pointer
type hits unreachable! and fails. -/
def parse_input (pat : Pat) (ty : RustType) : Option (String × Ptr) :=
  match pat with
  | .ident name =>
      match ty with
      | .ptr m elem =>
          match ptrFromTypePtr m elem with
          | some p => some (name, p)
          | none => none
      | _ => none
  | .other => none

/-- The new safe-facing type text chosen per parameter inside
signature_input: match on the lowercased name, then on the pointer. -/
def safe_type (name : String) (ptr : Ptr) : String :=
  if lower name = "info" then "&mut i32"
  else if lower name = "a" ∨ lower name = "b" ∨ lower name = "ipiv" ∨ lower name = "work" then
    match ptr with
    | .Constant t => "&[" ++ t ++ "]"
    | .Mutable t => "&mut [" ++ t ++ "]"
  else ptr.ty

/-- A transformed argument: the original binding pattern with its type
replaced by the safe-facing type text (the source mutates only *arg.ty). -/
structure SafeArg where
  pat : Pat
  ty : String

/-- Transformation of one argument inside signature_input: a receiver
hits unreachable!, otherwise parse_input classifies and the type is
replaced. -/
def sig_arg (arg : FnArg) : Option SafeArg :=
  match arg with
  | .typed pat ty =>
      match parse_input pat ty with
      | some (name, ptr) => some ⟨pat, safe_type name ptr⟩
      | none => none
  | .receiver => none

/-- Convert pointer-based raw-LAPACK API into value and reference based
API: the fn signature_input of the source, mapping sig_arg over the
ordered argument list (a panic anywhere aborts the whole collect). -/
def signature_input : List FnArg → Option (List SafeArg)
  | [] => some []
  | a :: rest =>
      match sig_arg a, signature_input rest with
      | some s, some ss => some (s :: ss)
      | _, _ => none

/-- The call-site expression text chosen per parameter inside the fn
call of the source: the info row emits the fixed identifier "info", the
array rows emit name.as_ptr() / name.as_mut_ptr(), and the value row
takes an address, casting to c_char first when the pointee is u8. -/
def call_expr (name : String) (ptr : Ptr) : String :=
  if lower name = "info" then "info"
  else if lower name = "a" ∨ lower name = "b" ∨ lower name = "ipiv" ∨ lower name = "work" then
    match ptr with
    | .Constant _ => name ++ ".as_ptr()"
    | .Mutable _ => name ++ ".as_mut_ptr()"
  else
    match ptr with
    | .Constant t => if t = "u8" then "&(" ++ name ++ " as c_char)" else "&" ++ name
    | .Mutable t => if t = "u8" then "&mut (" ++ name ++ " as c_char)" else "&mut " ++ name

/-- Generation of one call argument inside the fn call of the source. -/
def call_arg (arg : FnArg) : Option String :=
  match arg with
  | .typed pat ty =>
      match parse_input pat ty with
      | some (name, ptr) => some (call_expr name ptr)
      | none => none
  | .receiver => none

/-- The fn call of the source: one argument expression per parameter,
in order. -/
def call : List FnArg → Option (List String)
  | [] => some []
  | a :: rest =>
      match call_arg a, call rest with
      | some c, some cs => some (c :: cs)
      | _, _ => none

/-- Rust's trim_end_matches('_'): remove every trailing underscore. -/
def trimEndUnderscores (s : String) : String :=
  String.mk ((s.data.reverse.dropWhile (fun c => c = '_')).reverse)

/-- The generated wrapper, holding exactly the holes of the quote!
template pub unsafe fn name(inputs) output { callee(args) }. -/
structure Wrapper where
  name : String
  inputs : List SafeArg
  output : Option RustType
  callee : String
  args : List String

/-- Comma-separated rendering helper. -/
def commaSep : List String → String
  | [] => ""
  | [s] => s
  | s :: rest => s ++ ", " ++ commaSep rest

/-- Rendering of one safe argument as name: type. -/
def SafeArg.render (a : SafeArg) : String :=
  (match a.pat with
   | .ident n => n
   | .other => "_") ++ ": " ++ a.ty

/-- Rendering of the optional return type. -/
def renderOutput : Option RustType → String
  | none => ""
  | some t => " -> " ++ renderType t

/-- Rendering of the wrapper, mirroring the fixed quote! template of fn
wrap: a public unsafe function whose body is one call to the raw name. -/
def Wrapper.render (w : Wrapper) : String :=
  "pub unsafe fn " ++ w.name ++ "(" ++ commaSep (w.inputs.map SafeArg.render) ++ ")"
    ++ renderOutput w.output ++ " \x7b " ++ w.callee ++ "(" ++ commaSep w.args ++ ") \x7d"

/-- Generate the wrapped function: the fn wrap of the source.  The
wrapper name strips trailing underscores from the raw identifier; the
inputs and call arguments come from signature_input and call, and any
panic in either aborts the whole generation. -/
def wrap (f : ForeignItemFn) : Option Wrapper :=
  match signature_input f.inputs, call f.inputs with
  | some input, some c =>
      some { name := trimEndUnderscores f.ident
             inputs := input
             output := f.output
             callee := f.ident
             args := c }
  | _, _ => none

/-- A proc-macro token tree: an atomic token (identifier, literal or
punctuation, kept as its text) or a bracketed group. -/
inductive Tok where
  | atom (s : String)
  | group (ts : List Tok)

/-- Modelled from the spec: the external syntax library's parsing of a
type inside a foreign declaration, at token level.  Only the shapes the
tool's input contract mentions are given token grammar: a pointer
(* const T / * mut T) or a plain named type. -/
def parseTy : List Tok → Option (RustType × List Tok)
  | .atom "*" :: .atom "const" :: rest =>
      match parseTy rest with
      | some (t, r) => some (.ptr false t, r)
      | none => none
  | .atom "*" :: .atom "mut" :: rest =>
      match parseTy rest with
      | some (t, r) => some (.ptr true t, r)
      | none => none
  | .atom n :: rest => if n = "*" then none else some (.path n [], rest)
  | _ => none

/-- Modelled from the spec: parsing of a comma-separated parameter list
name: type, name: type, ... with an optional trailing comma.  The fuel
argument only bounds the recursion; parseParams supplies enough. -/
def parseParamsF : Nat → List Tok → Option (List FnArg)
  | _, [] => some []
  | 0, _ :: _ => none
  | fuel + 1, .atom name :: .atom ":" :: rest =>
      match parseTy rest with
      | some (t, r) =>
          match r with
          | [] => some [.typed (.ident name) t]
          | .atom "," :: r2 =>
              match parseParamsF fuel r2 with
              | some ps => some (.typed (.ident name) t :: ps)
              | none => none
          | _ => none
      | none => none
  | _ + 1, _ :: _ => none

/-- Modelled from the spec: parsing of the parameter-list tokens inside
the declaration's parenthesized group. -/
def parseParams (ts : List Tok) : Option (List FnArg) :=
  parseParamsF ts.length ts

/-- Modelled from the spec: the external syntax library's parsing of the
group's token stream as exactly one foreign function declaration
(an optional pub, fn, the name, the parameter group, an optional return
type, a final semicolon, and nothing after it); any other stream makes
the source's syn::parse2(..).unwrap() panic. -/
def parseForeignDecl (ts : List Tok) : Option ForeignItemFn :=
  let body := match ts with
              | .atom "pub" :: rest => rest
              | _ => ts
  match body with
  | .atom "fn" :: .atom name :: .group ps :: rest =>
      match parseParams ps with
      | some inputs =>
          match rest with
          | [.atom ";"] => some ⟨name, inputs, none⟩
          | .atom "->" :: more =>
              match parseTy more with
              | some (t, [.atom ";"]) => some ⟨name, inputs, some t⟩
              | _ => none
          | _ => none
      | none => none
  | _ => none

/-- The fn parse_foreign_fn of the source: skip two tokens (meant to be
the calling-convention tokens, but never inspected), demand that the
next token is a group, and parse the group's stream as one foreign
function declaration.  Anything after the group is ignored. -/
def parse_foreign_fn (func : List Tok) : Option ForeignItemFn :=
  match func.drop 2 with
  | Tok.group g :: _ => parseForeignDecl g
  | _ => none

/-- The fn lapack2 of the source: parse the annotated block, generate
the wrapper, and emit the original token stream unchanged followed by
the wrapper. -/
def lapack2 (func : List Tok) : Option (List Tok × Wrapper) :=
  match parse_foreign_fn func with
  | some f =>
      match wrap f with
      | some w => some (func, w)
      | none => none
  | none => none


/-- A character that may appear in a Rust identifier: letters, digits
and the underscore. -/
def goodChar (c : Char) : Bool :=
  c.isAlphanum || c = '_'

/-- A nonempty string made of identifier characters, the validity
guarantee a syn::Ident carries. -/
def isIdent (s : String) : Bool :=
  !s.data.isEmpty && s.data.all goodChar

/-- Strip an expected sequence of leading characters, returning the
remainder when the whole sequence is present. -/
def dropPre : List Char → List Char → Option (List Char)
  | [], s => some s
  | _ :: _, [] => none
  | p :: ps, c :: cs => if p = c then dropPre ps cs else none

/-- Strip an expected sequence of trailing characters. -/
def dropSuf (p s : List Char) : Option (List Char) :=
  (dropPre p.reverse s.reverse).map List.reverse

/-- Strip an expected leading and an expected trailing sequence. -/
def between (p q s : List Char) : Option (List Char) :=
  match dropPre p s with
  | some r => dropSuf q r
  | none => none

/-- Modelled from the spec: the abstract syntax of the seven call
argument shapes the generator can emit, after parsing the emitted text
the way the syntax library would at the call site. -/
inductive CallExpr where
  | var (x : List Char)
  | asPtr (x : List Char)
  | asMutPtr (x : List Char)
  | refVar (x : List Char)
  | refMutVar (x : List Char)
  | refCharCast (x : List Char)
  | refMutCharCast (x : List Char)

/-- The identifier a call argument expression refers to. -/
def CallExpr.freeVar : CallExpr → List Char
  | .var x => x
  | .asPtr x => x
  | .asMutPtr x => x
  | .refVar x => x
  | .refMutVar x => x
  | .refCharCast x => x
  | .refMutCharCast x => x

/-- A small ordinal distinguishing the rule-table row that produced a
call argument expression. -/
def CallExpr.shape : CallExpr → Nat
  | .var _ => 0
  | .asPtr _ => 1
  | .asMutPtr _ => 2
  | .refVar _ => 3
  | .refMutVar _ => 4
  | .refCharCast _ => 5
  | .refMutCharCast _ => 6

/-- Modelled from the spec: parsing of an emitted call argument text
into its abstract shape, trying the more specific shapes first. -/
def parseCallArgL (s : List Char) : CallExpr :=
  match dropSuf ".as_mut_ptr()".data s with
  | some x => .asMutPtr x
  | none =>
    match dropSuf ".as_ptr()".data s with
    | some x => .asPtr x
    | none =>
      match between "&mut (".data " as c_char)".data s with
      | some x => .refMutCharCast x
      | none =>
        match between "&(".data " as c_char)".data s with
        | some x => .refCharCast x
        | none =>
          match dropPre "&mut ".data s with
          | some x => .refMutVar x
          | none =>
            match dropPre "&".data s with
            | some x => .refVar x
            | none => .var s

/-- Modelled from the spec: the four safe-facing type shapes the
signature transformer can emit. -/
inductive SafeTy where
  | refMut (t : List Char)
  | slice (t : List Char)
  | sliceMut (t : List Char)
  | value (t : List Char)

/-- Modelled from the spec: parsing of an emitted safe type text into
its shape. -/
def parseSafeTyL (s : List Char) : SafeTy :=
  match between "&mut [".data "]".data s with
  | some t => .sliceMut t
  | none =>
    match between "&[".data "]".data s with
    | some t => .slice t
    | none =>
      match dropPre "&mut ".data s with
      | some t => .refMut t
      | none => .value s

/-- Modelled from the spec: the type of a call argument expression at
the foreign call boundary. -/
inductive ArgTy where
  | ref (t : List Char)
  | refMut (t : List Char)
  | rawConst (t : List Char)
  | rawMut (t : List Char)

/-- Modelled from the spec: the scalar type aliases the FFI boundary
identifies — c_int is the 32-bit signed integer, and the platform
character type is the single byte (a platform with unsigned char). -/
def normTyL (t : List Char) : List Char :=
  if t = "c_int".data then "i32".data
  else if t = "c_char".data then "u8".data
  else t

/-- Modelled from the spec: Rust typing of a call argument expression
whose one free variable must be the safe parameter name, of the given
safe type.  A slice view yields a const pointer via as_ptr, a mutable
view a mut pointer via as_mut_ptr, a by-value scalar an address, the
character cast an address of c_char, and the info reference is passed
as it is. -/
def exprType (name : List Char) (st : SafeTy) (e : CallExpr) : Option ArgTy :=
  match e with
  | .var x =>
      if x = name then
        match st with
        | .refMut t => some (.refMut t)
        | _ => none
      else none
  | .asPtr x =>
      if x = name then
        match st with
        | .slice t => some (.rawConst t)
        | .sliceMut t => some (.rawConst t)
        | _ => none
      else none
  | .asMutPtr x =>
      if x = name then
        match st with
        | .sliceMut t => some (.rawMut t)
        | _ => none
      else none
  | .refVar x =>
      if x = name then
        match st with
        | .value t => some (.ref t)
        | _ => none
      else none
  | .refMutVar x =>
      if x = name then
        match st with
        | .value t => some (.refMut t)
        | _ => none
      else none
  | .refCharCast x =>
      if x = name then
        match st with
        | .value _ => some (.ref "c_char".data)
        | _ => none
      else none
  | .refMutCharCast x =>
      if x = name then
        match st with
        | .value _ => some (.refMut "c_char".data)
        | _ => none
      else none

/-- Modelled from the spec: the implicit coercions Rust applies from the
argument's type to the raw parameter's pointer type — a shared reference
to a const pointer, a mutable reference to a mut or const pointer, and
raw pointers to themselves, all up to the FFI scalar aliases.  No other
conversion is implicit. -/
def coercesTo (a : ArgTy) (raw : Ptr) : Bool :=
  match a, raw with
  | .ref t, .Constant u => decide (normTyL t = normTyL u.data)
  | .refMut t, .Constant u => decide (normTyL t = normTyL u.data)
  | .refMut t, .Mutable u => decide (normTyL t = normTyL u.data)
  | .rawConst t, .Constant u => decide (normTyL t = normTyL u.data)
  | .rawMut t, .Mutable u => decide (normTyL t = normTyL u.data)
  | _, _ => false

/-- One generated call argument type-checks against the raw pointer
parameter: it parses to a shape whose free variable is the safe
parameter's name and whose type coerces to the raw pointer type. -/
def argWellTyped (name safeTy arg : String) (raw : Ptr) : Bool :=
  let e := parseCallArgL arg.data
  decide (CallExpr.freeVar e = name.data) &&
    match exprType name.data (parseSafeTyL safeTy.data) e with
    | some t => coercesTo t raw
    | none => false

/-- Pointwise well-typedness of a whole generated call: the i-th call
argument, typed against the i-th safe parameter, fits the i-th raw
pointer parameter. -/
def argsWellTyped : List FnArg → List SafeArg → List String → Bool
  | [], [], [] => true
  | .typed pat ty :: rest, s :: ss, c :: cs =>
      (match parse_input pat ty with
       | some (name, ptr) => argWellTyped name s.ty c ptr
       | none => false) && argsWellTyped rest ss cs
  | _, _, _ => false

/-- An argument the analyzer accepts: a plain identifier bound to a
pointer whose pointee is a path. -/
def conforms : FnArg → Bool
  | .typed (.ident _) (.ptr _ (.path _ _)) => true
  | _ => false

/-- An argument whose identifier (and, behind a pointer, pointee head)
is a wellformed Rust identifier — the guarantee the syntax library
gives any parsed declaration. -/
def wfArg : FnArg → Bool
  | .typed (.ident n) (.ptr _ (.path head _)) => isIdent n && isIdent head
  | _ => false

/-- The side condition under which the info row is consistent: an
info-classified parameter is spelled in lowercase and its declared
pointee is the 32-bit signed integer type. -/
def infoOk : FnArg → Bool
  | .typed pat ty =>
      match parse_input pat ty with
      | some (name, ptr) =>
          if lower name = "info" then
            decide (name = "info") && decide (normTyL ptr.ty.data = "i32".data)
          else true
      | none => true
  | .receiver => true

/-- The first character of a rendered pointee is an identifier
character, so the pointee text cannot collide with the leading
ampersand of the generated reference and slice types. -/
def headGood (s : String) : Bool :=
  match s.data with
  | c :: _ => goodChar c
  | [] => false

/-! Helper lemmas about the character-level parsers. -/

theorem data_append (a b : String) : (a ++ b).data = a.data ++ b.data :=
  String.data_append a b

theorem dropPre_common (a : List Char) :
    ∀ p s : List Char, dropPre (a ++ p) (a ++ s) = dropPre p s := by
  induction a with
  | nil => intro p s; rfl
  | cons c cs ih => intro p s; simpa [dropPre] using ih p s

theorem dropPre_refl_append (p s : List Char) : dropPre p (p ++ s) = some s := by
  have h := dropPre_common p [] s
  simpa using h

theorem dropSuf_refl_append (p s : List Char) : dropSuf p (s ++ p) = some s := by
  unfold dropSuf
  rw [List.reverse_append, dropPre_refl_append]
  simp

theorem dropPre_bad {c : Char} (hc : goodChar c = false) :
    ∀ (p : List Char) {l : List Char}, l.all goodChar = true →
      ∀ q : List Char, dropPre (p ++ c :: q) l = none := by
  intro p
  induction p with
  | nil =>
      intro l hl q
      cases l with
      | nil => rfl
      | cons a as =>
          have ha : goodChar a = true := by
            rw [List.all_cons] at hl; exact (Bool.and_eq_true_iff.mp hl).1
          have : c ≠ a := by
            intro h; rw [h, ha] at hc; cases hc
          simp [dropPre, this]
  | cons x xs ih =>
      intro l hl q
      cases l with
      | nil => rfl
      | cons a as =>
          have ha : as.all goodChar = true := by
            rw [List.all_cons] at hl
            exact (Bool.and_eq_true_iff.mp hl).2
          by_cases hxa : x = a
          · subst hxa
            simpa [dropPre] using ih ha q
          · simp [dropPre, hxa]

theorem goodChar_ne_close {c : Char} (hc : goodChar c = true) : c ≠ ')' := by
  intro h; rw [h] at hc; cases hc

theorem goodChar_ne_amp {c : Char} (hc : goodChar c = true) : c ≠ '&' := by
  intro h; rw [h] at hc; cases hc

theorem dropSuf_close (p pre : List Char) {l : List Char}
    (hl : l ≠ []) (hg : l.all goodChar = true) :
    dropSuf (p ++ [')']) (pre ++ l) = none := by
  unfold dropSuf
  rw [List.reverse_append, List.reverse_append]
  obtain ⟨c, t, hct⟩ : ∃ c t, l.reverse = c :: t := by
    cases h : l.reverse with
    | nil => exact absurd (List.reverse_eq_nil_iff.mp h) hl
    | cons c t => exact ⟨c, t, rfl⟩
  rw [hct]
  have hc : goodChar c = true := by
    have hmem : c ∈ l := by
      rw [← List.mem_reverse, hct]; exact List.mem_cons_self c t
    exact List.all_eq_true.mp hg c hmem
  have hne : (')' : Char) ≠ c := fun h => goodChar_ne_close hc h.symm
  simp [dropPre, hne]

theorem isIdent_spec {s : String} (h : isIdent s = true) :
    s.data ≠ [] ∧ s.data.all goodChar = true := by
  unfold isIdent at h
  rcases Bool.and_eq_true_iff.mp h with ⟨h1, h2⟩
  refine ⟨?_, h2⟩
  intro hnil
  rw [hnil] at h1
  cases h1

/-! Characterization of the shape parsers on exactly the texts the
transformer emits. -/

theorem parseSafeTy_refMut_i32 : parseSafeTyL "&mut i32".data = SafeTy.refMut "i32".data := rfl

theorem parseSafeTy_slice (t : String) :
    parseSafeTyL ("&[" ++ t ++ "]").data = SafeTy.slice t.data := by
  have hd : ("&[" ++ t ++ "]").data = '&' :: '[' :: (t.data ++ "]".data) := by
    rw [data_append, data_append, List.append_assoc]; rfl
  rw [hd]
  have h1 : between "&mut [".data "]".data ('&' :: '[' :: (t.data ++ "]".data)) = none := rfl
  have h2 : between "&[".data "]".data ('&' :: '[' :: (t.data ++ "]".data)) = some t.data := by
    unfold between
    have hpre : dropPre "&[".data ('&' :: '[' :: (t.data ++ "]".data))
        = some (t.data ++ "]".data) := rfl
    rw [hpre]
    exact dropSuf_refl_append _ _
  simp [parseSafeTyL, h1, h2]

theorem parseSafeTy_sliceMut (t : String) :
    parseSafeTyL ("&mut [" ++ t ++ "]").data = SafeTy.sliceMut t.data := by
  have hd : ("&mut [" ++ t ++ "]").data
      = '&' :: 'm' :: 'u' :: 't' :: ' ' :: '[' :: (t.data ++ "]".data) := by
    rw [data_append, data_append, List.append_assoc]; rfl
  rw [hd]
  have h1 : between "&mut [".data "]".data
      ('&' :: 'm' :: 'u' :: 't' :: ' ' :: '[' :: (t.data ++ "]".data)) = some t.data := by
    unfold between
    have hpre : dropPre "&mut [".data
        ('&' :: 'm' :: 'u' :: 't' :: ' ' :: '[' :: (t.data ++ "]".data))
        = some (t.data ++ "]".data) := rfl
    rw [hpre]
    exact dropSuf_refl_append _ _
  simp [parseSafeTyL, h1]

theorem parseSafeTy_value (t : String) (ht : headGood t = true) :
    parseSafeTyL t.data = SafeTy.value t.data := by
  unfold headGood at ht
  rcases hdata : t.data with _ | ⟨c, r⟩
  · rw [hdata] at ht; cases ht
  · rw [hdata] at ht
    have hne : ('&' : Char) ≠ c := fun h => goodChar_ne_amp ht h.symm
    have h1 : between "&mut [".data "]".data (c :: r) = none := by
      unfold between
      simp [dropPre, hne]
    have h2 : between "&[".data "]".data (c :: r) = none := by
      unfold between
      simp [dropPre, hne]
    have h3 : dropPre "&mut ".data (c :: r) = none := by
      simp [dropPre, hne]
    simp [parseSafeTyL, h1, h2, h3]

theorem pca_asMutPtr (x : String) :
    parseCallArgL (x ++ ".as_mut_ptr()").data = CallExpr.asMutPtr x.data := by
  rw [data_append]
  have h1 : dropSuf ".as_mut_ptr()".data (x.data ++ ".as_mut_ptr()".data)
      = some x.data := dropSuf_refl_append _ _
  simp [parseCallArgL, h1]

theorem pca_asPtr (x : String) :
    parseCallArgL (x ++ ".as_ptr()").data = CallExpr.asPtr x.data := by
  rw [data_append]
  have h1 : dropSuf ".as_mut_ptr()".data (x.data ++ ".as_ptr()".data) = none := by
    unfold dropSuf
    rw [List.reverse_append]
    rfl
  have h2 : dropSuf ".as_ptr()".data (x.data ++ ".as_ptr()".data)
      = some x.data := dropSuf_refl_append _ _
  simp [parseCallArgL, h1, h2]

theorem pca_refMutCharCast (x : String) :
    parseCallArgL ("&mut (" ++ x ++ " as c_char)").data
      = CallExpr.refMutCharCast x.data := by
  have hd : ("&mut (" ++ x ++ " as c_char)").data
      = "&mut (".data ++ (x.data ++ " as c_char)".data) := by
    rw [data_append, data_append, List.append_assoc]
  rw [hd]
  have h1 : dropSuf ".as_mut_ptr()".data
      ("&mut (".data ++ (x.data ++ " as c_char)".data)) = none := by
    unfold dropSuf
    rw [List.reverse_append, List.reverse_append]
    rfl
  have h2 : dropSuf ".as_ptr()".data
      ("&mut (".data ++ (x.data ++ " as c_char)".data)) = none := by
    unfold dropSuf
    rw [List.reverse_append, List.reverse_append]
    rfl
  have h3 : between "&mut (".data " as c_char)".data
      ("&mut (".data ++ (x.data ++ " as c_char)".data)) = some x.data := by
    unfold between
    rw [dropPre_refl_append]
    exact dropSuf_refl_append _ _
  unfold parseCallArgL
  rw [h1, h2, h3]

theorem pca_refCharCast (x : String) :
    parseCallArgL ("&(" ++ x ++ " as c_char)").data
      = CallExpr.refCharCast x.data := by
  have hd : ("&(" ++ x ++ " as c_char)").data
      = "&(".data ++ (x.data ++ " as c_char)".data) := by
    rw [data_append, data_append, List.append_assoc]
  rw [hd]
  have h1 : dropSuf ".as_mut_ptr()".data
      ("&(".data ++ (x.data ++ " as c_char)".data)) = none := by
    unfold dropSuf
    rw [List.reverse_append, List.reverse_append]
    rfl
  have h2 : dropSuf ".as_ptr()".data
      ("&(".data ++ (x.data ++ " as c_char)".data)) = none := by
    unfold dropSuf
    rw [List.reverse_append, List.reverse_append]
    rfl
  have h3 : between "&mut (".data " as c_char)".data
      ("&(".data ++ (x.data ++ " as c_char)".data)) = none := rfl
  have h4 : between "&(".data " as c_char)".data
      ("&(".data ++ (x.data ++ " as c_char)".data)) = some x.data := by
    unfold between
    rw [dropPre_refl_append]
    exact dropSuf_refl_append _ _
  unfold parseCallArgL
  rw [h1, h2, h3, h4]

theorem pca_refVar (x : String) (hx : isIdent x = true) :
    parseCallArgL ("&" ++ x).data = CallExpr.refVar x.data := by
  obtain ⟨hne, hg⟩ := isIdent_spec hx
  have hd : ("&" ++ x).data = '&' :: x.data := by
    rw [data_append]; rfl
  rw [hd]
  have h1 : dropSuf ".as_mut_ptr()".data ('&' :: x.data) = none :=
    dropSuf_close ".as_mut_ptr(".data ['&'] hne hg
  have h2 : dropSuf ".as_ptr()".data ('&' :: x.data) = none :=
    dropSuf_close ".as_ptr(".data ['&'] hne hg
  have hsp : goodChar ' ' = false := by decide
  have hpar : goodChar '(' = false := by decide
  have h3 : between "&mut (".data " as c_char)".data ('&' :: x.data) = none := by
    unfold between
    have hstep : dropPre "&mut (".data ('&' :: x.data)
        = dropPre (['m', 'u', 't'] ++ ' ' :: ['(']) x.data := rfl
    rw [hstep, dropPre_bad hsp ['m', 'u', 't'] hg ['(']]
  have h4 : between "&(".data " as c_char)".data ('&' :: x.data) = none := by
    unfold between
    have hstep : dropPre "&(".data ('&' :: x.data)
        = dropPre ([] ++ '(' :: []) x.data := rfl
    rw [hstep, dropPre_bad hpar [] hg []]
  have h5 : dropPre "&mut ".data ('&' :: x.data) = none := by
    have hstep : dropPre "&mut ".data ('&' :: x.data)
        = dropPre (['m', 'u', 't'] ++ ' ' :: []) x.data := rfl
    rw [hstep, dropPre_bad hsp ['m', 'u', 't'] hg []]
  have h6 : dropPre "&".data ('&' :: x.data) = some x.data := rfl
  unfold parseCallArgL
  rw [h1, h2, h3, h4, h5, h6]

theorem pca_refMutVar (x : String) (hx : isIdent x = true) :
    parseCallArgL ("&mut " ++ x).data = CallExpr.refMutVar x.data := by
  obtain ⟨hne, hg⟩ := isIdent_spec hx
  have hd : ("&mut " ++ x).data = '&' :: 'm' :: 'u' :: 't' :: ' ' :: x.data := by
    rw [data_append]; rfl
  rw [hd]
  have h1 : dropSuf ".as_mut_ptr()".data ('&' :: 'm' :: 'u' :: 't' :: ' ' :: x.data) = none :=
    dropSuf_close ".as_mut_ptr(".data ['&', 'm', 'u', 't', ' '] hne hg
  have h2 : dropSuf ".as_ptr()".data ('&' :: 'm' :: 'u' :: 't' :: ' ' :: x.data) = none :=
    dropSuf_close ".as_ptr(".data ['&', 'm', 'u', 't', ' '] hne hg
  have hpar : goodChar '(' = false := by decide
  have h3 : between "&mut (".data " as c_char)".data
      ('&' :: 'm' :: 'u' :: 't' :: ' ' :: x.data) = none := by
    unfold between
    have hstep : dropPre "&mut (".data ('&' :: 'm' :: 'u' :: 't' :: ' ' :: x.data)
        = dropPre ([] ++ '(' :: []) x.data := rfl
    rw [hstep, dropPre_bad hpar [] hg []]
  have h4 : between "&(".data " as c_char)".data
      ('&' :: 'm' :: 'u' :: 't' :: ' ' :: x.data) = none := rfl
  have h5 : dropPre "&mut ".data ('&' :: 'm' :: 'u' :: 't' :: ' ' :: x.data)
      = some x.data := rfl
  unfold parseCallArgL
  rw [h1, h2, h3, h4, h5]

theorem pca_var (x : String) (hx : isIdent x = true) :
    parseCallArgL x.data = CallExpr.var x.data := by
  obtain ⟨hne, hg⟩ := isIdent_spec hx
  have hxid : x.data = [] ++ x.data := rfl
  have hamp : goodChar '&' = false := by decide
  have h1 : dropSuf ".as_mut_ptr()".data x.data = none := by
    rw [hxid]
    exact dropSuf_close ".as_mut_ptr(".data [] hne hg
  have h2 : dropSuf ".as_ptr()".data x.data = none := by
    rw [hxid]
    exact dropSuf_close ".as_ptr(".data [] hne hg
  have h3 : between "&mut (".data " as c_char)".data x.data = none := by
    unfold between
    rw [show "&mut (".data = [] ++ '&' :: ['m', 'u', 't', ' ', '('] from rfl,
      dropPre_bad hamp [] hg]
  have h4 : between "&(".data " as c_char)".data x.data = none := by
    unfold between
    rw [show "&(".data = [] ++ '&' :: ['('] from rfl, dropPre_bad hamp [] hg]
  have h5 : dropPre "&mut ".data x.data = none := by
    rw [show "&mut ".data = [] ++ '&' :: ['m', 'u', 't', ' '] from rfl,
      dropPre_bad hamp [] hg]
  have h6 : dropPre "&".data x.data = none := by
    rw [show "&".data = [] ++ '&' :: [] from rfl, dropPre_bad hamp [] hg]
  unfold parseCallArgL
  rw [h1, h2, h3, h4, h5, h6]

/-! Well-typedness of each generated argument against its raw pointer. -/

theorem awt_info (ptr : Ptr) (hty : normTyL ptr.ty.data = "i32".data) :
    argWellTyped "info" "&mut i32" "info" ptr = true := by
  cases ptr with
  | Constant u =>
      have hu : normTyL u.data = "i32".data := hty
      simp only [argWellTyped]
      have hE : parseCallArgL "info".data = CallExpr.var "info".data := rfl
      have hS : parseSafeTyL "&mut i32".data = SafeTy.refMut "i32".data := rfl
      rw [hE, hS]
      simp [CallExpr.freeVar, exprType, coercesTo, hu]
      rfl
  | Mutable u =>
      have hu : normTyL u.data = "i32".data := hty
      simp only [argWellTyped]
      have hE : parseCallArgL "info".data = CallExpr.var "info".data := rfl
      have hS : parseSafeTyL "&mut i32".data = SafeTy.refMut "i32".data := rfl
      rw [hE, hS]
      simp [CallExpr.freeVar, exprType, coercesTo, hu]
      rfl

theorem awt_arr_const (name t : String) :
    argWellTyped name ("&[" ++ t ++ "]") (name ++ ".as_ptr()") (Ptr.Constant t) = true := by
  simp only [argWellTyped]
  rw [pca_asPtr, parseSafeTy_slice]
  simp [CallExpr.freeVar, exprType, coercesTo]

theorem awt_arr_mut (name t : String) :
    argWellTyped name ("&mut [" ++ t ++ "]") (name ++ ".as_mut_ptr()")
      (Ptr.Mutable t) = true := by
  simp only [argWellTyped]
  rw [pca_asMutPtr, parseSafeTy_sliceMut]
  simp [CallExpr.freeVar, exprType, coercesTo]

theorem awt_value_const (name t : String) (hn : isIdent name = true)
    (hp : headGood t = true) :
    argWellTyped name t ("&" ++ name) (Ptr.Constant t) = true := by
  simp only [argWellTyped]
  rw [pca_refVar name hn, parseSafeTy_value t hp]
  simp [CallExpr.freeVar, exprType, coercesTo]

theorem awt_value_mut (name t : String) (hn : isIdent name = true)
    (hp : headGood t = true) :
    argWellTyped name t ("&mut " ++ name) (Ptr.Mutable t) = true := by
  simp only [argWellTyped]
  rw [pca_refMutVar name hn, parseSafeTy_value t hp]
  simp [CallExpr.freeVar, exprType, coercesTo]

theorem awt_value_const_u8 (name : String) :
    argWellTyped name "u8" ("&(" ++ name ++ " as c_char)") (Ptr.Constant "u8") = true := by
  simp only [argWellTyped]
  rw [pca_refCharCast]
  have hS : parseSafeTyL "u8".data = SafeTy.value "u8".data := rfl
  rw [hS]
  simp [CallExpr.freeVar, exprType, coercesTo]
  decide

theorem awt_value_mut_u8 (name : String) :
    argWellTyped name "u8" ("&mut (" ++ name ++ " as c_char)") (Ptr.Mutable "u8") = true := by
  simp only [argWellTyped]
  rw [pca_refMutCharCast]
  have hS : parseSafeTyL "u8".data = SafeTy.value "u8".data := rfl
  rw [hS]
  simp [CallExpr.freeVar, exprType, coercesTo]
  decide

/-- One conforming parameter whose info side condition holds produces a
well-typed call argument. -/
theorem arg_round_trip (name : String) (ptr : Ptr)
    (hn : isIdent name = true) (hp : headGood ptr.ty = true)
    (hinfo : lower name = "info" →
      name = "info" ∧ normTyL ptr.ty.data = "i32".data) :
    argWellTyped name (safe_type name ptr) (call_expr name ptr) ptr = true := by
  by_cases hi : lower name = "info"
  · obtain ⟨hname, hty⟩ := hinfo hi
    subst hname
    simp only [safe_type, call_expr, if_pos hi]
    exact awt_info ptr hty
  · by_cases ha : lower name = "a" ∨ lower name = "b" ∨ lower name = "ipiv" ∨ lower name = "work"
    · cases ptr with
      | Constant t =>
          simp only [safe_type, call_expr, if_neg hi, if_pos ha]
          exact awt_arr_const name t
      | Mutable t =>
          simp only [safe_type, call_expr, if_neg hi, if_pos ha]
          exact awt_arr_mut name t
    · cases ptr with
      | Constant t =>
          by_cases hu : t = "u8"
          · subst hu
            simp only [safe_type, call_expr, if_neg hi, if_neg ha, Ptr.ty, if_pos rfl]
            exact awt_value_const_u8 name
          · simp only [safe_type, call_expr, if_neg hi, if_neg ha, Ptr.ty, if_neg hu]
            exact awt_value_const name t hn hp
      | Mutable t =>
          by_cases hu : t = "u8"
          · subst hu
            simp only [safe_type, call_expr, if_neg hi, if_neg ha, Ptr.ty, if_pos rfl]
            exact awt_value_mut_u8 name
          · simp only [safe_type, call_expr, if_neg hi, if_neg ha, Ptr.ty, if_neg hu]
            exact awt_value_mut name t hn hp

/-! From a wellformed conforming argument to the per-argument lemma. -/

theorem isIdent_headGood {s : String} (h : isIdent s = true) : headGood s = true := by
  obtain ⟨hne, hg⟩ := isIdent_spec h
  unfold headGood
  rcases hd : s.data with _ | ⟨c, r⟩
  · exact absurd hd hne
  · have : c ∈ s.data := by rw [hd]; exact List.mem_cons_self c r
    exact List.all_eq_true.mp hg c this

theorem headGood_append (s t : String) (h : headGood s = true) :
    headGood (s ++ t) = true := by
  unfold headGood at h ⊢
  rw [data_append]
  rcases hd : s.data with _ | ⟨c, r⟩
  · rw [hd] at h; cases h
  · rw [hd] at h; exact h


theorem headGood_renderPath (id : String) (args : List RustType)
    (hid : isIdent id = true) :
    headGood (renderType (RustType.path id args)) = true := by
  cases args with
  | nil => exact isIdent_headGood hid
  | cons a rest =>
      show headGood (id ++ " < " ++ renderType a ++ renderTypeTail rest ++ " >") = true
      exact headGood_append _ _ (headGood_append _ _ (headGood_append _ _
        (headGood_append _ _ (isIdent_headGood hid))))

theorem wfArg_spec {a : FnArg} (h : wfArg a = true) :
    ∃ n m id targs, a = FnArg.typed (Pat.ident n) (RustType.ptr m (RustType.path id targs)) ∧
      isIdent n = true ∧ isIdent id = true := by
  cases a with
  | receiver => simp [wfArg] at h
  | typed pat ty =>
      cases pat with
      | other => simp [wfArg] at h
      | ident n =>
          cases ty with
          | path id targs => simp [wfArg] at h
          | array e => simp [wfArg] at h
          | ptr m elem =>
              cases elem with
              | ptr _ _ => simp [wfArg] at h
              | array _ => simp [wfArg] at h
              | path id targs =>
                  simp only [wfArg, Bool.and_eq_true] at h
                  exact ⟨n, m, id, targs, rfl, h.1, h.2⟩

theorem parse_input_path (name : String) (m : Bool) (id : String) (targs : List RustType) :
    parse_input (Pat.ident name) (RustType.ptr m (RustType.path id targs)) =
      some (name,
        if m then Ptr.Mutable (renderType (RustType.path id targs))
        else Ptr.Constant (renderType (RustType.path id targs))) := rfl

theorem Ptr.ty_of_ite (m : Bool) (t : String) :
    (if m then Ptr.Mutable t else Ptr.Constant t).ty = t := by
  cases m <;> rfl

/-- Every conforming, wellformed argument list whose info parameters
are lowercase with a 32-bit pointee yields a pointwise well-typed call:
the inductive engine behind the round-trip claim. -/
theorem round_trip_engine (args : List FnArg)
    (hwf : ∀ a ∈ args, wfArg a = true)
    (hio : ∀ a ∈ args, infoOk a = true) :
    ∀ ss cs, signature_input args = some ss → call args = some cs →
      argsWellTyped args ss cs = true := by
  induction args with
  | nil =>
      intro ss cs hs hc
      cases hs; cases hc; rfl
  | cons a rest ih =>
      intro ss cs hs hc
      obtain ⟨n, m, id, targs, rfl, hn, hid⟩ := wfArg_spec (hwf a (List.mem_cons_self a rest))
      have hpi := parse_input_path n m id targs
      have hsig : sig_arg (FnArg.typed (Pat.ident n) (RustType.ptr m (RustType.path id targs)))
          = some ⟨Pat.ident n, safe_type n
              (if m then Ptr.Mutable (renderType (RustType.path id targs))
               else Ptr.Constant (renderType (RustType.path id targs)))⟩ := by
        simp [sig_arg, hpi]
      have hca : call_arg (FnArg.typed (Pat.ident n) (RustType.ptr m (RustType.path id targs)))
          = some (call_expr n
              (if m then Ptr.Mutable (renderType (RustType.path id targs))
               else Ptr.Constant (renderType (RustType.path id targs)))) := by
        simp [call_arg, hpi]
      unfold signature_input at hs
      rw [hsig] at hs
      unfold call at hc
      rw [hca] at hc
      rcases hrs : signature_input rest with _ | ss'
      · rw [hrs] at hs; cases hs
      rcases hrc : call rest with _ | cs'
      · rw [hrc] at hc; cases hc
      rw [hrs] at hs
      rw [hrc] at hc
      cases hs; cases hc
      have hrest : argsWellTyped rest ss' cs' = true :=
        ih (fun x hx => hwf x (List.mem_cons_of_mem _ hx))
          (fun x hx => hio x (List.mem_cons_of_mem _ hx)) ss' cs' hrs hrc
      have hone : argWellTyped n
          (safe_type n (if m then Ptr.Mutable (renderType (RustType.path id targs))
            else Ptr.Constant (renderType (RustType.path id targs))))
          (call_expr n (if m then Ptr.Mutable (renderType (RustType.path id targs))
            else Ptr.Constant (renderType (RustType.path id targs))))
          (if m then Ptr.Mutable (renderType (RustType.path id targs))
            else Ptr.Constant (renderType (RustType.path id targs))) = true := by
        apply arg_round_trip _ _ hn
        · rw [Ptr.ty_of_ite]
          exact headGood_renderPath id targs hid
        · intro hlow
          have hioa := hio _ (List.mem_cons_self _ rest)
          simp only [infoOk] at hioa
          rw [hpi] at hioa
          simp [hlow] at hioa
          exact ⟨hioa.1, hioa.2⟩
      simp [argsWellTyped, hpi, hone, hrest]

/-! Lemmas about trailing-underscore stripping. -/

theorem dropWhile_twice (p : Char → Bool) (l : List Char) :
    List.dropWhile p (List.dropWhile p l) = List.dropWhile p l := by
  induction l with
  | nil => rfl
  | cons a t ih =>
      by_cases hpa : p a = true
      · simp [List.dropWhile_cons, hpa, ih]
      · simp [List.dropWhile_cons, hpa]

theorem dropWhile_head_false (p : Char → Bool) (l : List Char) :
    ∀ c, (List.dropWhile p l).head? = some c → p c = false := by
  induction l with
  | nil => intro c h; cases h
  | cons a t ih =>
      intro c h
      by_cases hpa : p a = true
      · rw [List.dropWhile_cons, if_pos hpa] at h
        exact ih c h
      · rw [List.dropWhile_cons, if_neg hpa] at h
        cases h
        exact Bool.eq_false_iff.mpr hpa

theorem trim_data (s : String) :
    (trimEndUnderscores s).data
      = (List.dropWhile (fun c => c = '_') s.data.reverse).reverse := rfl

theorem trim_idem (s : String) :
    trimEndUnderscores (trimEndUnderscores s) = trimEndUnderscores s := by
  apply String.ext
  rw [trim_data, trim_data]
  rw [List.reverse_reverse, dropWhile_twice]

theorem takeWhile_all (p : Char → Bool) (l : List Char) :
    ∀ b ∈ l.takeWhile p, p b = true := by
  induction l with
  | nil => intro b hb; cases hb
  | cons a t ih =>
      intro b hb
      rw [List.takeWhile_cons] at hb
      by_cases hpa : p a = true
      · rw [if_pos hpa] at hb
        rcases List.mem_cons.mp hb with rfl | hb2
        · exact hpa
        · exact ih b hb2
      · rw [if_neg hpa] at hb; cases hb

theorem trim_decomp (s : String) :
    ∃ k, s.data = (trimEndUnderscores s).data ++ List.replicate k '_' := by
  refine ⟨(List.takeWhile (fun c => c = '_') s.data.reverse).length, ?_⟩
  rw [trim_data]
  have hsplit := List.takeWhile_append_dropWhile (fun c => c = '_') s.data.reverse
  have hAll : ∀ b ∈ List.takeWhile (fun c => (c = '_' : Bool)) s.data.reverse, b = '_' := by
    intro b hb
    exact of_decide_eq_true (takeWhile_all _ _ b hb)
  have hrev : (List.takeWhile (fun c => (c = '_' : Bool)) s.data.reverse).reverse
      = List.replicate (List.takeWhile (fun c => (c = '_' : Bool)) s.data.reverse).length '_' := by
    rw [List.eq_replicate_iff]
    exact ⟨List.length_reverse _, fun b hb => hAll b (List.mem_reverse.mp hb)⟩
  calc s.data = s.data.reverse.reverse := (List.reverse_reverse _).symm
    _ = (List.takeWhile (fun c => c = '_') s.data.reverse
          ++ List.dropWhile (fun c => c = '_') s.data.reverse).reverse := by rw [hsplit]
    _ = (List.dropWhile (fun c => c = '_') s.data.reverse).reverse
          ++ (List.takeWhile (fun c => c = '_') s.data.reverse).reverse := by
            rw [List.reverse_append]
    _ = (List.dropWhile (fun c => c = '_') s.data.reverse).reverse
          ++ List.replicate (List.takeWhile (fun c => c = '_') s.data.reverse).length '_' := by
            rw [hrev]

theorem trim_no_trailing (s : String) :
    (trimEndUnderscores s).data.getLast? ≠ some '_' := by
  rw [trim_data, List.getLast?_reverse]
  intro h
  have := dropWhile_head_false (fun c => c = '_') s.data.reverse '_' h
  simp at this

theorem trim_noop (s : String) (h : s.data.getLast? ≠ some '_') :
    trimEndUnderscores s = s := by
  apply String.ext
  rw [trim_data]
  have hh : s.data.reverse.head? ≠ some '_' := by
    intro hc
    apply h
    rw [← List.getLast?_reverse s.data.reverse, List.reverse_reverse] at hc
    exact hc
  rcases hr : s.data.reverse with _ | ⟨c, t⟩
  · have hnil : s.data = [] := by
      have h2 := congrArg List.reverse hr
      rwa [List.reverse_reverse] at h2
    rw [hnil]
    rfl
  · have hc : ¬((fun c => (decide (c = '_'))) c = true) := by
      intro hctrue
      apply hh
      rw [hr]
      have hcu : c = '_' := of_decide_eq_true hctrue
      rw [hcu]
      rfl
    rw [List.dropWhile_cons, if_neg hc, ← hr, List.reverse_reverse]

/-! Failure propagation for malformed parameters. -/

theorem sig_arg_none_of_not_conforms {a : FnArg} (h : conforms a = false) :
    sig_arg a = none := by
  cases a with
  | receiver => rfl
  | typed pat ty =>
      cases pat with
      | other => rfl
      | ident n =>
          cases ty with
          | path id targs => rfl
          | array e => rfl
          | ptr m elem =>
              cases elem with
              | path id targs => simp [conforms] at h
              | ptr _ _ => rfl
              | array _ => rfl

theorem call_arg_none_of_not_conforms {a : FnArg} (h : conforms a = false) :
    call_arg a = none := by
  cases a with
  | receiver => rfl
  | typed pat ty =>
      cases pat with
      | other => rfl
      | ident n =>
          cases ty with
          | path id targs => rfl
          | array e => rfl
          | ptr m elem =>
              cases elem with
              | path id targs => simp [conforms] at h
              | ptr _ _ => rfl
              | array _ => rfl

theorem signature_input_none_of_mem {args : List FnArg} {a : FnArg}
    (ha : a ∈ args) (h : sig_arg a = none) : signature_input args = none := by
  induction args with
  | nil => cases ha
  | cons x rest ih =>
      rcases List.mem_cons.mp ha with rfl | hmem
      · unfold signature_input
        rw [h]
      · unfold signature_input
        rw [ih hmem]
        cases sig_arg x <;> rfl

theorem call_none_of_mem {args : List FnArg} {a : FnArg}
    (ha : a ∈ args) (h : call_arg a = none) : call args = none := by
  induction args with
  | nil => cases ha
  | cons x rest ih =>
      rcases List.mem_cons.mp ha with rfl | hmem
      · unfold call
        rw [h]
      · unfold call
        rw [ih hmem]
        cases call_arg x <;> rfl

theorem sig_arg_shape {a : FnArg} {s : SafeArg} (h : sig_arg a = some s) :
    ∃ pat ty, a = FnArg.typed pat ty ∧ s.pat = pat := by
  cases a with
  | receiver => cases h
  | typed pat ty =>
      refine ⟨pat, ty, rfl, ?_⟩
      simp only [sig_arg] at h
      rcases hpi : parse_input pat ty with _ | p
      · rw [hpi] at h; cases h
      · rw [hpi] at h
        cases h
        rfl

/-! The claims. -/

/-- C1 (amended): for a declaration conforming to the input contract in
which every info-classified parameter is spelled info in lowercase and
has the 32-bit signed pointee, the Signature Transformer and the
Call-Expression Generator produce safe parameters and call arguments
that type-check against the raw pointer types, each argument referring
to its safe parameter, with no cast beyond the explicit character
cast. -/
theorem C1_round_trip_amended (args : List FnArg)
    (hwf : ∀ a ∈ args, wfArg a = true)
    (hio : ∀ a ∈ args, infoOk a = true)
    (ss : List SafeArg) (cs : List String)
    (hs : signature_input args = some ss)
    (hc : call args = some cs) :
    argsWellTyped args ss cs = true :=
  round_trip_engine args hwf hio ss cs hs hc

/-- C1 witness: the dgetrs-like declaration evaluates to a fully
well-typed wrapper call. -/
theorem C1_round_trip_amended_witness :
    argsWellTyped
      [FnArg.typed (Pat.ident "trans") (RustType.ptr false (RustType.path "c_char" [])),
       FnArg.typed (Pat.ident "n") (RustType.ptr false (RustType.path "c_int" [])),
       FnArg.typed (Pat.ident "diag") (RustType.ptr false (RustType.path "u8" [])),
       FnArg.typed (Pat.ident "A") (RustType.ptr false (RustType.path "f64" [])),
       FnArg.typed (Pat.ident "ipiv") (RustType.ptr false (RustType.path "c_int" [])),
       FnArg.typed (Pat.ident "B") (RustType.ptr true (RustType.path "f64" [])),
       FnArg.typed (Pat.ident "info") (RustType.ptr true (RustType.path "c_int" []))]
      [⟨Pat.ident "trans", "c_char"⟩, ⟨Pat.ident "n", "c_int"⟩, ⟨Pat.ident "diag", "u8"⟩,
       ⟨Pat.ident "A", "&[f64]"⟩, ⟨Pat.ident "ipiv", "&[c_int]"⟩,
       ⟨Pat.ident "B", "&mut [f64]"⟩, ⟨Pat.ident "info", "&mut i32"⟩]
      ["&trans", "&n", "&(diag as c_char)", "A.as_ptr()", "ipiv.as_ptr()",
       "B.as_mut_ptr()", "info"] = true :=
  C1_round_trip_amended _ (by decide) (by decide) _ _ rfl rfl

/-- C1 counterexample: a parameter named INFO (a case variant of info)
gets the safe parameter INFO of type a mutable 32-bit reference, but
the generated call argument is the fixed lowercase identifier info,
which does not refer to the safe parameter; the generated wrapper does
not type-check. -/
theorem C1_counterexample :
    signature_input
        [FnArg.typed (Pat.ident "INFO") (RustType.ptr true (RustType.path "c_int" []))]
      = some [⟨Pat.ident "INFO", "&mut i32"⟩] ∧
    call [FnArg.typed (Pat.ident "INFO") (RustType.ptr true (RustType.path "c_int" []))]
      = some ["info"] ∧
    argsWellTyped
        [FnArg.typed (Pat.ident "INFO") (RustType.ptr true (RustType.path "c_int" []))]
        [⟨Pat.ident "INFO", "&mut i32"⟩] ["info"] = false ∧
    (parseCallArgL "info".data).freeVar ≠ "INFO".data := by
  refine ⟨rfl, rfl, rfl, ?_⟩
  decide

/-- C2 (amended): the Declaration Parser accepts exactly the annotated
streams whose third token is a bracketed group whose contents parse as
one foreign function declaration; the first two tokens — meant to be
the calling-convention tokens — are skipped without being checked, and
tokens after the group are ignored. -/
theorem C2_parse_shape :
    (∀ (func : List Tok) (f : ForeignItemFn), parse_foreign_fn func = some f →
      ∃ t1 t2 g rest, func = t1 :: t2 :: Tok.group g :: rest ∧ parseForeignDecl g = some f) ∧
    (∀ (t1 t2 : Tok) (g rest : List Tok) (f : ForeignItemFn),
      parseForeignDecl g = some f →
      parse_foreign_fn (t1 :: t2 :: Tok.group g :: rest) = some f) := by
  constructor
  · intro func f h
    rcases func with _ | ⟨t1, func1⟩
    · exact Option.noConfusion h
    rcases func1 with _ | ⟨t2, func2⟩
    · exact Option.noConfusion h
    rcases func2 with _ | ⟨t3, rest⟩
    · exact Option.noConfusion h
    cases t3 with
    | atom s => exact Option.noConfusion h
    | group g => exact ⟨t1, t2, g, rest, rfl, h⟩
  · intro t1 t2 g rest f h
    exact h

/-- C2 witness: a wellformed extern "C" block with one declaration is
accepted through the second direction of the shape theorem. -/
theorem C2_parse_shape_witness :
    parse_foreign_fn
        [Tok.atom "extern", Tok.atom "\"C\"",
         Tok.group [Tok.atom "fn", Tok.atom "ssysv_",
           Tok.group [Tok.atom "n", Tok.atom ":", Tok.atom "*", Tok.atom "const",
             Tok.atom "c_int"],
           Tok.atom ";"]]
      = some ⟨"ssysv_",
          [FnArg.typed (Pat.ident "n") (RustType.ptr false (RustType.path "c_int" []))],
          none⟩ :=
  C2_parse_shape.2 (Tok.atom "extern") (Tok.atom "\"C\"") _ [] _ rfl

/-- C2 counterexample: a block that is not an extern "C" block — its
tokens are unsafe extern { ... }, with no "C" literal anywhere — is
accepted and produces wrapper output, because the parser skips the two
leading tokens without inspecting them. -/
theorem C2_counterexample :
    parse_foreign_fn
        [Tok.atom "unsafe", Tok.atom "extern",
         Tok.group [Tok.atom "fn", Tok.atom "dgesv_",
           Tok.group [Tok.atom "n", Tok.atom ":", Tok.atom "*", Tok.atom "const",
             Tok.atom "c_int"],
           Tok.atom ";"]]
      = some ⟨"dgesv_",
          [FnArg.typed (Pat.ident "n") (RustType.ptr false (RustType.path "c_int" []))],
          none⟩ ∧
    (lapack2
        [Tok.atom "unsafe", Tok.atom "extern",
         Tok.group [Tok.atom "fn", Tok.atom "dgesv_",
           Tok.group [Tok.atom "n", Tok.atom ":", Tok.atom "*", Tok.atom "const",
             Tok.atom "c_int"],
           Tok.atom ";"]]).isSome = true :=
  ⟨rfl, rfl⟩

/-- C3 (amended): a parameter that is a receiver, has a non-identifier
binding, a non-pointer type, or a pointer to a non-path pointee
(pointer-to-pointer or array) makes the whole transformation fail
fatally with no partial output; a parameterized pointee, being still a
syn path, is accepted (see the counterexample). -/
theorem C3_bad_shape_fails (f : ForeignItemFn) (a : FnArg)
    (ha : a ∈ f.inputs) (hbad : conforms a = false) :
    signature_input f.inputs = none ∧ call f.inputs = none ∧ wrap f = none := by
  have hs := signature_input_none_of_mem ha (sig_arg_none_of_not_conforms hbad)
  have hc := call_none_of_mem ha (call_arg_none_of_not_conforms hbad)
  refine ⟨hs, hc, ?_⟩
  unfold wrap
  rw [hs, hc]

/-- C3 witness: a pointer-to-pointer parameter aborts the whole
transformation. -/
theorem C3_bad_shape_fails_witness :
    signature_input [FnArg.typed (Pat.ident "x")
        (RustType.ptr false (RustType.ptr false (RustType.path "f64" [])))] = none ∧
    call [FnArg.typed (Pat.ident "x")
        (RustType.ptr false (RustType.ptr false (RustType.path "f64" [])))] = none ∧
    wrap ⟨"cbar_", [FnArg.typed (Pat.ident "x")
        (RustType.ptr false (RustType.ptr false (RustType.path "f64" [])))], none⟩ = none :=
  C3_bad_shape_fails
    ⟨"cbar_", [FnArg.typed (Pat.ident "x")
      (RustType.ptr false (RustType.ptr false (RustType.path "f64" [])))], none⟩
    (FnArg.typed (Pat.ident "x")
      (RustType.ptr false (RustType.ptr false (RustType.path "f64" []))))
    (List.mem_cons_self _ _) rfl

/-- C3 counterexample: a pointer whose pointee is the parameterized
path Num<f64> is accepted — the transformation succeeds and emits a
wrapper — though the claim says a parameterized pointee must fail. -/
theorem C3_counterexample :
    wrap ⟨"cfoo_", [FnArg.typed (Pat.ident "a")
        (RustType.ptr false (RustType.path "Num" [RustType.path "f64" []]))], none⟩
      = some ⟨"cfoo", [⟨Pat.ident "a", "&[Num < f64 >]"⟩], none, "cfoo_",
          ["a.as_ptr()"]⟩ := rfl

/-- C4 (amended): for every parameter whose lowercased name is info the
safe type is a mutable reference to a 32-bit signed integer regardless
of the declared pointee, and the generated call argument is the fixed
lowercase identifier info — an expression that denotes the safe
parameter (passed directly, relying on reference-to-pointer coercion)
exactly when the parameter is itself spelled info. -/
theorem C4_info_row (name : String) (ptr : Ptr) (h : lower name = "info") :
    safe_type name ptr = "&mut i32" ∧
    call_expr name ptr = "info" ∧
    parseCallArgL (call_expr name ptr).data = CallExpr.var "info".data ∧
    ((parseCallArgL (call_expr name ptr).data).freeVar = name.data ↔ name = "info") := by
  have h1 : safe_type name ptr = "&mut i32" := by
    unfold safe_type; rw [if_pos h]
  have h2 : call_expr name ptr = "info" := by
    unfold call_expr; rw [if_pos h]
  refine ⟨h1, h2, ?_, ?_⟩
  · rw [h2]; rfl
  · rw [h2]
    constructor
    · intro h3
      exact String.ext h3.symm
    · intro h3
      subst h3
      rfl

/-- C4 witness: the lowercase info parameter takes the mutable 32-bit
reference and is passed directly. -/
theorem C4_info_row_witness :
    safe_type "info" (Ptr.Mutable "c_int") = "&mut i32" ∧
    call_expr "info" (Ptr.Mutable "c_int") = "info" :=
  ⟨(C4_info_row "info" (Ptr.Mutable "c_int") rfl).1,
   (C4_info_row "info" (Ptr.Mutable "c_int") rfl).2.1⟩

/-- C4 counterexample: for the case variant INFO the safe type is still
the mutable 32-bit reference, but the call argument is the identifier
info, which is not the safe parameter INFO — the argument does not pass
the safe value. -/
theorem C4_counterexample :
    safe_type "INFO" (Ptr.Mutable "c_int") = "&mut i32" ∧
    call_expr "INFO" (Ptr.Mutable "c_int") = "info" ∧
    (parseCallArgL "info".data).freeVar ≠ "INFO".data ∧
    argWellTyped "INFO" "&mut i32" "info" (Ptr.Mutable "c_int") = false := by
  refine ⟨rfl, rfl, ?_, rfl⟩
  decide

/-- C5: for parameters named a, b, ipiv or work (case-insensitively), a
Constant descriptor gives a read-only slice of the pointee and a call
argument taking a const raw pointer from it, a Mutable descriptor a
mutable slice and a mut raw pointer; the source pointer's constness is
preserved exactly into the descriptor tag. -/
theorem C5_array_rows (name t : String)
    (h : lower name = "a" ∨ lower name = "b" ∨ lower name = "ipiv" ∨ lower name = "work") :
    safe_type name (Ptr.Constant t) = "&[" ++ t ++ "]" ∧
    safe_type name (Ptr.Mutable t) = "&mut [" ++ t ++ "]" ∧
    call_expr name (Ptr.Constant t) = name ++ ".as_ptr()" ∧
    call_expr name (Ptr.Mutable t) = name ++ ".as_mut_ptr()" ∧
    parseCallArgL (name ++ ".as_ptr()").data = CallExpr.asPtr name.data ∧
    parseCallArgL (name ++ ".as_mut_ptr()").data = CallExpr.asMutPtr name.data ∧
    (∀ (m : Bool) (elem : RustType) (p : Ptr), ptrFromTypePtr m elem = some p →
      ((∃ u, p = Ptr.Mutable u) ↔ m = true)) := by
  have hni : lower name ≠ "info" := by
    rcases h with h | h | h | h <;> (rw [h]; decide)
  refine ⟨?_, ?_, ?_, ?_, pca_asPtr name, pca_asMutPtr name, ?_⟩
  · unfold safe_type; rw [if_neg hni, if_pos h]
  · unfold safe_type; rw [if_neg hni, if_pos h]
  · unfold call_expr; rw [if_neg hni, if_pos h]
  · unfold call_expr; rw [if_neg hni, if_pos h]
  · intro m elem p hp
    cases elem with
    | path id targs =>
        simp only [ptrFromTypePtr] at hp
        injection hp with hp2
        subst hp2
        cases m with
        | false => simp
        | true => simp
    | ptr _ _ => exact Option.noConfusion hp
    | array _ => exact Option.noConfusion hp

/-- C5 witness: the uppercase matrix names A and B select the two array
rows at concrete pointee f64. -/
theorem C5_array_rows_witness :
    safe_type "A" (Ptr.Constant "f64") = "&[f64]" ∧
    call_expr "A" (Ptr.Constant "f64") = "A.as_ptr()" ∧
    safe_type "B" (Ptr.Mutable "f64") = "&mut [f64]" ∧
    call_expr "B" (Ptr.Mutable "f64") = "B.as_mut_ptr()" :=
  ⟨(C5_array_rows "A" "f64" (Or.inl (by decide))).1,
   (C5_array_rows "A" "f64" (Or.inl (by decide))).2.2.1,
   (C5_array_rows "B" "f64" (Or.inr (Or.inl (by decide)))).2.1,
   (C5_array_rows "B" "f64" (Or.inr (Or.inl (by decide)))).2.2.2.1⟩

/-- C6: a parameter with a non-special name takes the bare pointee type
by value; the call argument takes an immutable address for Constant and
a mutable address for Mutable, except that a u8 pointee is first cast
to c_char before its address is taken. -/
theorem C6_value_row (name t : String) (hn : isIdent name = true)
    (h1 : lower name ≠ "info")
    (h2 : ¬(lower name = "a" ∨ lower name = "b" ∨ lower name = "ipiv" ∨ lower name = "work")) :
    safe_type name (Ptr.Constant t) = t ∧
    safe_type name (Ptr.Mutable t) = t ∧
    (t ≠ "u8" →
      call_expr name (Ptr.Constant t) = "&" ++ name ∧
      call_expr name (Ptr.Mutable t) = "&mut " ++ name ∧
      parseCallArgL ("&" ++ name).data = CallExpr.refVar name.data ∧
      parseCallArgL ("&mut " ++ name).data = CallExpr.refMutVar name.data) ∧
    (t = "u8" →
      call_expr name (Ptr.Constant t) = "&(" ++ name ++ " as c_char)" ∧
      call_expr name (Ptr.Mutable t) = "&mut (" ++ name ++ " as c_char)" ∧
      parseCallArgL ("&(" ++ name ++ " as c_char)").data = CallExpr.refCharCast name.data ∧
      parseCallArgL ("&mut (" ++ name ++ " as c_char)").data
        = CallExpr.refMutCharCast name.data) := by
  refine ⟨?_, ?_, ?_, ?_⟩
  · unfold safe_type; rw [if_neg h1, if_neg h2]; rfl
  · unfold safe_type; rw [if_neg h1, if_neg h2]; rfl
  · intro ht
    refine ⟨?_, ?_, pca_refVar name hn, pca_refMutVar name hn⟩
    · unfold call_expr; rw [if_neg h1, if_neg h2]
      exact if_neg ht
    · unfold call_expr; rw [if_neg h1, if_neg h2]
      exact if_neg ht
  · intro ht
    subst ht
    refine ⟨?_, ?_, pca_refCharCast name, pca_refMutCharCast name⟩
    · unfold call_expr; rw [if_neg h1, if_neg h2]; rfl
    · unfold call_expr; rw [if_neg h1, if_neg h2]; rfl

/-- C6 witness: the scalar lda passes by value and by address; the byte
flag diag is cast to c_char before its address is taken. -/
theorem C6_value_row_witness :
    safe_type "lda" (Ptr.Constant "c_int") = "c_int" ∧
    call_expr "lda" (Ptr.Constant "c_int") = "&lda" ∧
    call_expr "diag" (Ptr.Constant "u8") = "&(diag as c_char)" :=
  ⟨(C6_value_row "lda" "c_int" (by decide) (by decide) (by decide)).1,
   ((C6_value_row "lda" "c_int" (by decide) (by decide) (by decide)).2.2.1 (by decide)).1,
   ((C6_value_row "diag" "u8" (by decide) (by decide) (by decide)).2.2.2 rfl).1⟩

/-- C7: name classification is case-insensitive — two identifiers with
the same lowercasing get the same safe type and call arguments of the
same rule-table row, in both the Signature Transformer and the
Call-Expression Generator. -/
theorem C7_case_insensitive (n1 n2 : String) (ptr : Ptr)
    (hi1 : isIdent n1 = true) (hi2 : isIdent n2 = true)
    (hl : lower n1 = lower n2) :
    safe_type n1 ptr = safe_type n2 ptr ∧
    (parseCallArgL (call_expr n1 ptr).data).shape
      = (parseCallArgL (call_expr n2 ptr).data).shape := by
  by_cases hinfo : lower n1 = "info"
  · have hinfo2 : lower n2 = "info" := by rw [← hl]; exact hinfo
    constructor
    · unfold safe_type
      rw [if_pos hinfo, if_pos hinfo2]
    · unfold call_expr
      rw [if_pos hinfo, if_pos hinfo2]
  · have hinfo2 : ¬ lower n2 = "info" := by rw [← hl]; exact hinfo
    by_cases harr : lower n1 = "a" ∨ lower n1 = "b" ∨ lower n1 = "ipiv" ∨ lower n1 = "work"
    · have harr2 : lower n2 = "a" ∨ lower n2 = "b" ∨ lower n2 = "ipiv" ∨ lower n2 = "work" := by
        rw [← hl]; exact harr
      constructor
      · unfold safe_type
        rw [if_neg hinfo, if_neg hinfo2, if_pos harr, if_pos harr2]
      · unfold call_expr
        rw [if_neg hinfo, if_neg hinfo2, if_pos harr, if_pos harr2]
        cases ptr with
        | Constant t =>
            show (parseCallArgL (n1 ++ ".as_ptr()").data).shape
              = (parseCallArgL (n2 ++ ".as_ptr()").data).shape
            rw [pca_asPtr n1, pca_asPtr n2]
            rfl
        | Mutable t =>
            show (parseCallArgL (n1 ++ ".as_mut_ptr()").data).shape
              = (parseCallArgL (n2 ++ ".as_mut_ptr()").data).shape
            rw [pca_asMutPtr n1, pca_asMutPtr n2]
            rfl
    · have harr2 : ¬(lower n2 = "a" ∨ lower n2 = "b" ∨ lower n2 = "ipiv" ∨ lower n2 = "work") := by
        rw [← hl]; exact harr
      constructor
      · unfold safe_type
        rw [if_neg hinfo, if_neg hinfo2, if_neg harr, if_neg harr2]
      · unfold call_expr
        rw [if_neg hinfo, if_neg hinfo2, if_neg harr, if_neg harr2]
        cases ptr with
        | Constant t =>
            show (parseCallArgL ((if t = "u8" then "&(" ++ n1 ++ " as c_char)"
                else "&" ++ n1)).data).shape
              = (parseCallArgL ((if t = "u8" then "&(" ++ n2 ++ " as c_char)"
                else "&" ++ n2)).data).shape
            by_cases ht : t = "u8"
            · rw [if_pos ht, if_pos ht, pca_refCharCast n1, pca_refCharCast n2]
              rfl
            · rw [if_neg ht, if_neg ht, pca_refVar n1 hi1, pca_refVar n2 hi2]
              rfl
        | Mutable t =>
            show (parseCallArgL ((if t = "u8" then "&mut (" ++ n1 ++ " as c_char)"
                else "&mut " ++ n1)).data).shape
              = (parseCallArgL ((if t = "u8" then "&mut (" ++ n2 ++ " as c_char)"
                else "&mut " ++ n2)).data).shape
            by_cases ht : t = "u8"
            · rw [if_pos ht, if_pos ht, pca_refMutCharCast n1, pca_refMutCharCast n2]
              rfl
            · rw [if_neg ht, if_neg ht, pca_refMutVar n1 hi1, pca_refMutVar n2 hi2]
              rfl

/-- C7 witness: A and a classify identically at pointee f64. -/
theorem C7_case_insensitive_witness :
    safe_type "A" (Ptr.Constant "f64") = safe_type "a" (Ptr.Constant "f64") :=
  (C7_case_insensitive "A" "a" (Ptr.Constant "f64")
    (by decide) (by decide) (by decide)).1

/-- C8: for every successfully transformed declaration, the emitted
output is the original token stream unchanged followed by the wrapper;
the wrapper is rendered public and unsafe, carries the raw return type,
and its body is exactly one call of the raw identifier with the
generated arguments. -/
theorem C8_output_shape (ts : List Tok) (p : List Tok × Wrapper)
    (h : lapack2 ts = some p) :
    p.1 = ts ∧
    ∃ f, parse_foreign_fn ts = some f ∧
      wrap f = some p.2 ∧
      p.2.callee = f.ident ∧
      p.2.output = f.output ∧
      p.2.name = trimEndUnderscores f.ident ∧
      signature_input f.inputs = some p.2.inputs ∧
      call f.inputs = some p.2.args ∧
      p.2.render = "pub unsafe fn " ++ p.2.name ++ "("
        ++ commaSep (p.2.inputs.map SafeArg.render) ++ ")" ++ renderOutput p.2.output
        ++ " \x7b " ++ p.2.callee ++ "(" ++ commaSep p.2.args ++ ") \x7d" := by
  rcases hpf : parse_foreign_fn ts with _ | f
  · have key : lapack2 ts = none := by
      unfold lapack2; rw [hpf]
    rw [key] at h
    exact Option.noConfusion h
  have key : lapack2 ts
      = (match wrap f with | some w => some (ts, w) | none => none) := by
    unfold lapack2; rw [hpf]
  rw [key] at h
  rcases hw : wrap f with _ | w <;> rw [hw] at h
  · exact Option.noConfusion h
  have h2 : some (ts, w) = some p := h
  cases h2
  refine ⟨rfl, f, rfl, hw, ?_, ?_, ?_, ?_, ?_, rfl⟩
  all_goals
    unfold wrap at hw
    rcases hs : signature_input f.inputs with _ | input <;> rw [hs] at hw
    · exact Option.noConfusion hw
    rcases hc : call f.inputs with _ | c <;> rw [hc] at hw
    · exact Option.noConfusion hw
    cases hw
    rfl

/-- C8 witness: a concrete extern "C" block evaluates to the original
stream plus its wrapper. -/
theorem C8_output_shape_witness :
    lapack2
        [Tok.atom "extern", Tok.atom "\"C\"",
         Tok.group [Tok.atom "fn", Tok.atom "dgels_",
           Tok.group [Tok.atom "m", Tok.atom ":", Tok.atom "*", Tok.atom "const",
             Tok.atom "c_int", Tok.atom ",", Tok.atom "info", Tok.atom ":", Tok.atom "*",
             Tok.atom "mut", Tok.atom "c_int"],
           Tok.atom ";"]]
      = some
          ([Tok.atom "extern", Tok.atom "\"C\"",
            Tok.group [Tok.atom "fn", Tok.atom "dgels_",
              Tok.group [Tok.atom "m", Tok.atom ":", Tok.atom "*", Tok.atom "const",
                Tok.atom "c_int", Tok.atom ",", Tok.atom "info", Tok.atom ":", Tok.atom "*",
                Tok.atom "mut", Tok.atom "c_int"],
              Tok.atom ";"]],
           ⟨"dgels", [⟨Pat.ident "m", "c_int"⟩, ⟨Pat.ident "info", "&mut i32"⟩],
            none, "dgels_", ["&m", "info"]⟩) ∧
    ([Tok.atom "extern", Tok.atom "\"C\"",
      Tok.group [Tok.atom "fn", Tok.atom "dgels_",
        Tok.group [Tok.atom "m", Tok.atom ":", Tok.atom "*", Tok.atom "const",
          Tok.atom "c_int", Tok.atom ",", Tok.atom "info", Tok.atom ":", Tok.atom "*",
          Tok.atom "mut", Tok.atom "c_int"],
        Tok.atom ";"]],
     (⟨"dgels", [⟨Pat.ident "m", "c_int"⟩, ⟨Pat.ident "info", "&mut i32"⟩],
      none, "dgels_", ["&m", "info"]⟩ : Wrapper)).1
      = [Tok.atom "extern", Tok.atom "\"C\"",
         Tok.group [Tok.atom "fn", Tok.atom "dgels_",
           Tok.group [Tok.atom "m", Tok.atom ":", Tok.atom "*", Tok.atom "const",
             Tok.atom "c_int", Tok.atom ",", Tok.atom "info", Tok.atom ":", Tok.atom "*",
             Tok.atom "mut", Tok.atom "c_int"],
           Tok.atom ";"]] :=
  ⟨rfl,
   (C8_output_shape
     [Tok.atom "extern", Tok.atom "\"C\"",
      Tok.group [Tok.atom "fn", Tok.atom "dgels_",
        Tok.group [Tok.atom "m", Tok.atom ":", Tok.atom "*", Tok.atom "const",
          Tok.atom "c_int", Tok.atom ",", Tok.atom "info", Tok.atom ":", Tok.atom "*",
          Tok.atom "mut", Tok.atom "c_int"],
        Tok.atom ";"]]
     ([Tok.atom "extern", Tok.atom "\"C\"",
       Tok.group [Tok.atom "fn", Tok.atom "dgels_",
         Tok.group [Tok.atom "m", Tok.atom ":", Tok.atom "*", Tok.atom "const",
           Tok.atom "c_int", Tok.atom ",", Tok.atom "info", Tok.atom ":", Tok.atom "*",
           Tok.atom "mut", Tok.atom "c_int"],
         Tok.atom ";"]],
      ⟨"dgels", [⟨Pat.ident "m", "c_int"⟩, ⟨Pat.ident "info", "&mut i32"⟩],
       none, "dgels_", ["&m", "info"]⟩) rfl).1⟩

/-- C9: the wrapper identifier is the raw identifier with all trailing
underscores removed and nothing else changed — the raw string
decomposes as the wrapper name followed by underscores only, the result
carries no trailing underscore, the stripping is idempotent, and it is
the identity on identifiers without a trailing underscore. -/
theorem C9_name_strip :
    (∀ (f : ForeignItemFn) (w : Wrapper), wrap f = some w →
      w.name = trimEndUnderscores f.ident) ∧
    (∀ s, trimEndUnderscores (trimEndUnderscores s) = trimEndUnderscores s) ∧
    (∀ s, ∃ k, s.data = (trimEndUnderscores s).data ++ List.replicate k '_') ∧
    (∀ s, (trimEndUnderscores s).data.getLast? ≠ some '_') ∧
    (∀ s, s.data.getLast? ≠ some '_' → trimEndUnderscores s = s) := by
  refine ⟨?_, trim_idem, trim_decomp, trim_no_trailing, trim_noop⟩
  intro f w h
  unfold wrap at h
  rcases hs : signature_input f.inputs with _ | input <;> rw [hs] at h
  · exact Option.noConfusion h
  rcases hc : call f.inputs with _ | c <;> rw [hc] at h
  · exact Option.noConfusion h
  cases h
  rfl

/-- C9 witness: stripping behaves as claimed on concrete names. -/
theorem C9_name_strip_witness :
    trimEndUnderscores "dgetrs_" = "dgetrs" ∧
    trimEndUnderscores (trimEndUnderscores "dgetrs__") = trimEndUnderscores "dgetrs__" ∧
    trimEndUnderscores "dgetrs" = "dgetrs" :=
  ⟨rfl, C9_name_strip.2.1 "dgetrs__", C9_name_strip.2.2.2.2 "dgetrs" (by decide)⟩

/-- C10: the Signature Transformer only replaces types — the output has
the same length and order as the input, and each output parameter keeps
the input's binding pattern verbatim, including its letter case. -/
theorem C10_sig_frame (args : List FnArg) (out : List SafeArg)
    (h : signature_input args = some out) :
    out.length = args.length ∧
    ∀ i (h1 : i < args.length) (h2 : i < out.length),
      ∃ pat ty, args.get ⟨i, h1⟩ = FnArg.typed pat ty ∧ (out.get ⟨i, h2⟩).pat = pat := by
  induction args generalizing out with
  | nil =>
      cases h
      exact ⟨rfl, fun i h1 _ => absurd h1 (Nat.not_lt_zero i)⟩
  | cons a rest ih =>
      unfold signature_input at h
      rcases hsa : sig_arg a with _ | s <;> rw [hsa] at h
      · exact Option.noConfusion h
      rcases hsr : signature_input rest with _ | ss <;> rw [hsr] at h
      · exact Option.noConfusion h
      cases h
      obtain ⟨pat, ty, hshape, hpat⟩ := sig_arg_shape hsa
      subst hshape
      obtain ⟨hlen, hidx⟩ := ih ss hsr
      constructor
      · simp [hlen]
      · intro i h1 h2
        cases i with
        | zero => exact ⟨pat, ty, rfl, hpat⟩
        | succ j =>
            have h1' : j < rest.length := by simpa using h1
            have h2' : j < ss.length := by simpa using h2
            exact hidx j h1' h2'

/-- C10 witness: names N and Work keep their spelling and order while
only the types change. -/
theorem C10_sig_frame_witness :
    signature_input
        [FnArg.typed (Pat.ident "N") (RustType.ptr false (RustType.path "c_int" [])),
         FnArg.typed (Pat.ident "Work") (RustType.ptr true (RustType.path "f64" []))]
      = some [⟨Pat.ident "N", "c_int"⟩, ⟨Pat.ident "Work", "&mut [f64]"⟩] ∧
    ([⟨Pat.ident "N", "c_int"⟩, ⟨Pat.ident "Work", "&mut [f64]"⟩] : List SafeArg).length
      = ([FnArg.typed (Pat.ident "N") (RustType.ptr false (RustType.path "c_int" [])),
          FnArg.typed (Pat.ident "Work") (RustType.ptr true (RustType.path "f64" []))]).length :=
  ⟨rfl,
   (C10_sig_frame
     [FnArg.typed (Pat.ident "N") (RustType.ptr false (RustType.path "c_int" [])),
      FnArg.typed (Pat.ident "Work") (RustType.ptr true (RustType.path "f64" []))]
     [⟨Pat.ident "N", "c_int"⟩, ⟨Pat.ident "Work", "&mut [f64]"⟩] rfl).1⟩
